import Mathlib

/-!
# Verification of the workflow graph ingestion pipeline

Shallow embedding of the graph normalization, branch resolution and layout
footprint logic of `frontend/src/components/WorkflowCanvas.jsx` (with the
decision handles of `CustomNode.jsx` and the JSON export of
`WorkflowConsole.jsx`), together with proofs about the resulting canonical
graphs.

JavaScript values are embedded first-order (`JVal`): arrays and objects are
encoded as cons-chains so every function below is structurally recursive and
kernel-reducible. Property access on `undefined`/`null` is a thrown
`TypeError`, modelled with `Except`; accesses on other non-object values
yield `undefined` as in JavaScript.
-/

/-- A JavaScript value. Arrays and objects are encoded as their own
cons-chains (`arrCons`/`objCons`), which keeps the type non-nested so all
functions over it reduce definitionally. Well-formed arrays end in `arrNil`
and objects in `objNil`; the list-based builders `JVal.arr` and `JVal.obj`
below only produce well-formed values. -/
inductive JVal : Type where
  | undef : JVal
  | null : JVal
  | bool : Bool → JVal
  | num : Int → JVal
  | str : String → JVal
  | arrNil : JVal
  | arrCons : JVal → JVal → JVal
  | objNil : JVal
  | objCons : String → JVal → JVal → JVal
  deriving Repr, DecidableEq

/-- Build an array value from a Lean list. -/
def JVal.arr : List JVal → JVal
  | [] => .arrNil
  | x :: xs => .arrCons x (JVal.arr xs)

/-- Build an object value from a Lean association list. -/
def JVal.obj : List (String × JVal) → JVal
  | [] => .objNil
  | (k, v) :: fs => .objCons k v (JVal.obj fs)

/-- JavaScript truthiness: `undefined`, `null`, `false`, `0` and `""` are
falsy; every array and object (including empty ones) is truthy. -/
def truthy : JVal → Bool
  | .undef => false
  | .null => false
  | .bool b => b
  | .num n => n != 0
  | .str s => s != ""
  | _ => true

/-- Disjunction `a || b` in JavaScript: the first operand if truthy, else the second. -/
def jOr (a b : JVal) : JVal := if truthy a then a else b

/-- Property lookup that never throws: used for `a?.b` and as the payload of
`getF`. Objects yield the first binding of the key; every non-object value
(including arrays, which have no string-named own properties we access)
yields `undefined`. -/
def lookupAny : JVal → String → JVal
  | .objCons k v rest, key => if k == key then v else lookupAny rest key
  | _, _ => JVal.undef

/-- Property access `a.b`. Throws (`.error`) when the receiver is
`undefined` or `null`, as in JavaScript; otherwise yields the property or
`undefined`. The error payload records the accessed key. -/
def getF : JVal → String → Except String JVal
  | .undef, key => .error key
  | .null, key => .error key
  | v, key => .ok (lookupAny v key)

/-- Optional chaining `a?.b`: yields `undefined` when the receiver is nullish,
otherwise plain property access (which cannot throw then). -/
def optF (v : JVal) (key : String) : JVal :=
  match v with
  | .undef => .undef
  | .null => .undef
  | _ => lookupAny v key

/-- Indexing `a[i]` for a numeric index: throws on a nullish receiver; indexes
arrays positionally, strings per character, and objects by the decimal
string key; yields `undefined` elsewhere. -/
def getIdx : JVal → Nat → Except String JVal
  | .undef, _ => .error "index"
  | .null, _ => .error "index"
  | .arrCons x _, 0 => .ok x
  | .arrCons _ rest, i + 1 => getIdx rest i
  | .arrNil, _ => .ok .undef
  | .str s, i =>
      .ok (match s.toList.get? i with
           | some c => .str (String.singleton c)
           | none => .undef)
  | .objCons k v rest, i => if k == toString i then .ok v else getIdx rest i
  | .objNil, _ => .ok .undef
  | _, _ => .ok JVal.undef

/-- String coercion `String(v)`. Arrays join their elements with
commas (nullish elements become empty), objects render as
`[object Object]`. -/
def jToString : JVal → String
  | .undef => "undefined"
  | .null => "null"
  | .bool true => "true"
  | .bool false => "false"
  | .num n => toString n
  | .str s => s
  | .arrNil => ""
  | .arrCons x rest =>
      (match x with
       | .undef => ""
       | .null => ""
       | y => jToString y) ++
      (match rest with
       | .arrNil => ""
       | r => "," ++ jToString r)
  | .objNil => "[object Object]"
  | .objCons _ _ _ => "[object Object]"

/-- Calling `.map` requires a genuine array; calling it on anything else throws. -/
def asArray : JVal → Except String (List JVal)
  | .arrNil => .ok []
  | .arrCons x rest => (asArray rest).map (fun xs => x :: xs)
  | _ => .error "map is not a function"

/-!
## Canonical model (WorkflowCanvas.jsx)

`nodeTypes` (lines 7–19) is an object literal mapping each recognized kind
tag to the `CustomNode` renderer; the normalizer only uses which keys it
has, so it is embedded as its key list.
-/

/-- The keys of the `nodeTypes` object literal of `WorkflowCanvas.jsx`. -/
def nodeTypeKeys : List String :=
  ["trigger", "action", "condition", "utility", "control", "http",
   "integration", "script", "log", "webhook", "default"]

/-- Property names the `nodeTypes` object literal inherits from
`Object.prototype`: a bracket lookup `nodeTypes[tag]` with one of these
names finds the inherited method (or, for `__proto__`, the prototype
object), all of which are truthy, even though the name is not an own key
of the literal. -/
def objectProtoKeys : List String :=
  ["constructor", "hasOwnProperty", "isPrototypeOf", "propertyIsEnumerable",
   "toLocaleString", "toString", "valueOf", "__defineGetter__",
   "__defineSetter__", "__lookupGetter__", "__lookupSetter__", "__proto__"]

/-- A normalized React Flow node as built at lines 85–103: `id`, the mapped
`type`, the `data` object (flattened here into the `label` … `task_display_name`
fields) and a `position`. Fields the code does not coerce stay `JVal`. -/
structure CNode where
  id : String
  type : JVal
  label : JVal
  nodeType : JVal
  config : JVal
  params : JVal
  integration_type_name : JVal
  task : JVal
  task_display_name : JVal
  position : JVal
  deriving Repr, DecidableEq

/-- A processed edge as built at lines 106–130: endpoints are coerced to
strings; `id`, `sourceHandle` and `label` stay whatever values the code
computes. -/
structure CEdge where
  id : JVal
  source : String
  target : String
  sourceHandle : JVal
  label : JVal
  deriving Repr, DecidableEq

/-- The canonical graph handed to layout: the normalized nodes and processed
edges, in raw input order. -/
structure CGraph where
  nodes : List CNode
  edges : List CEdge
  deriving Repr, DecidableEq

/-- Lowercasing `s.toLowerCase()` over the character list (structural, so it
kernel-reduces; ASCII-faithful, which covers the branch tokens compared
against). -/
def lowerString (s : String) : String := String.mk (s.data.map Char.toLower)

/-- Uppercasing `s.toUpperCase()` over the character list. -/
def upperString (s : String) : String := String.mk (s.data.map Char.toUpper)

/-- Strict equality `v === 's'` against a string literal. -/
def isStr (v : JVal) (s : String) : Bool :=
  match v with
  | .str t => t == s
  | _ => false

/-- Node normalization, lines 85–103:
`nodeType = n.type || 'default'`, `mappedType = nodeTypes[nodeType] ? nodeType : 'default'`,
then the React Flow node literal. The `nodeTypes[nodeType]` lookup is
truthy for the literal's own keys and for the truthy properties the
literal inherits from `Object.prototype` (`objectProtoKeys`). Property
accesses throw iff `n` is nullish. -/
def normNode (n : JVal) : Except String CNode := do
  let ty ← getF n "type"
  let nodeType0 := jOr ty (.str "default")
  let mappedType :=
    if nodeTypeKeys.contains (jToString nodeType0)
        || objectProtoKeys.contains (jToString nodeType0) then nodeType0
    else .str "default"
  let idv ← getF n "id"
  let lbl ← getF n "label"
  let dat ← getF n "data"
  let cfg ← getF n "config"
  let prm ← getF n "params"
  let itn ← getF n "integration_type_name"
  let tsk ← getF n "task"
  let tdn ← getF n "task_display_name"
  let pos ← getF n "position"
  pure {
    id := jToString idv
    type := mappedType
    label := jOr (jOr lbl (optF dat "label")) (.str "Untitled")
    nodeType := jOr ty (optF dat "nodeType")
    config := jOr (jOr cfg (optF dat "config")) (.obj [])
    params := jOr prm (.obj [])
    integration_type_name := itn
    task := tsk
    task_display_name := tdn
    position := jOr pos (.obj [("x", .num 0), ("y", .num 0)])
  }

/-- Lookup `normalizedNodes.find(n => n.id === source)`: first match in input
order. -/
def findNode : List CNode → String → Option CNode
  | [], _ => none
  | n :: rest, s => if n.id == s then some n else findNode rest s

/-- Decision test `sourceNode?.data?.nodeType === 'condition' || sourceNode?.type === 'control'`
(line 110): the decision test applied to the looked-up source node. -/
def isDecisionNode : Option CNode → Bool
  | some n => isStr n.nodeType "condition" || isStr n.type "control"
  | none => false

/-- Edge processing, lines 106–129, for the edge at positional index `idx`
against the already-normalized node list `ns`. -/
def processEdge (ns : List CNode) (idx : Nat) (edge : JVal) : Except String CEdge := do
  let esrc ← getF edge "source"
  let efrom ← getF edge "from"
  let etgt ← getF edge "target"
  let eto ← getF edge "to"
  let source := jToString (jOr esrc efrom)
  let target := jToString (jOr etgt eto)
  let sourceNode := findNode ns source
  let isDecision := isDecisionNode sourceNode
  let ehandle ← getF edge "sourceHandle"
  let elabel ← getF edge "label"
  let econd ← getF edge "condition"
  let condValue := optF econd "value"
  let sh1 :=
    if isDecision && truthy elabel then
      let labelLower := lowerString (jToString elabel)
      if labelLower == "true" then JVal.str "true"
      else if labelLower == "false" then JVal.str "false"
      else ehandle
    else ehandle
  let sh2 := if isDecision && !truthy sh1 && truthy condValue then condValue else sh1
  let eid ← getF edge "id"
  pure {
    id := jOr eid (.str ("e-" ++ toString idx))
    source := source
    target := target
    sourceHandle := sh2
    label := jOr elabel
      (if truthy condValue then .str (upperString (jToString condValue)) else .str "")
  }

/-- Mapping `rawNodes.map(n => …)`: normalize the nodes in order, propagating any
throw. -/
def normNodes : List JVal → Except String (List CNode)
  | [] => .ok []
  | n :: rest => do
      let c ← normNode n
      let cs ← normNodes rest
      pure (c :: cs)

/-- Mapping `rawEdges.map((edge, idx) => …)`: process the edges in order with their
positional indices, propagating any throw. -/
def processEdges (ns : List CNode) : Nat → List JVal → Except String (List CEdge)
  | _, [] => .ok []
  | idx, e :: rest => do
      let ce ← processEdge ns idx e
      let ces ← processEdges ns (idx + 1) rest
      pure (ce :: ces)

/-- Shape detection, lines 70–82: if `graphData.workflows` is truthy and its
first element is truthy, read `workflow_data.nodes`/`.connections`
(defaulting to `[]`); otherwise read the simple-shape `nodes`/`edges`
fields (defaulting to `[]`). -/
def selectRaw (g : JVal) : Except String (JVal × JVal) := do
  let ws ← getF g "workflows"
  if truthy ws then
    let w0 ← getIdx ws 0
    if truthy w0 then
      let w ← getF w0 "workflow_data"
      let nsv ← getF w "nodes"
      let esv ← getF w "connections"
      pure (jOr nsv (.arr []), jOr esv (.arr []))
    else
      let nsv ← getF g "nodes"
      let esv ← getF g "edges"
      pure (jOr nsv (.arr []), jOr esv (.arr []))
  else
    let nsv ← getF g "nodes"
    let esv ← getF g "edges"
    pure (jOr nsv (.arr []), jOr esv (.arr []))

/-- The whole normalization effect of lines 69–140 on a (truthy) `graphData`
value: shape selection, node normalization, then edge processing against
the normalized nodes. Throwing anywhere aborts with `.error`, as an
uncaught exception would. (The spec calls this `normalize`; that name is
taken by Mathlib.) -/
def normalizeGraph (g : JVal) : Except String CGraph := do
  let sel ← selectRaw g
  let rawNodes ← asArray sel.1
  let rawEdges ← asArray sel.2
  let ns ← normNodes rawNodes
  let es ← processEdges ns 0 rawEdges
  pure ⟨ns, es⟩

/-!
## Layout (getLayoutedElements, lines 21–62)

The dagre rank solver itself is an external library; it is abstracted as a
`pos` function from node id to the node-center coordinates dagre would
return. Everything of `getLayoutedElements` that lives in this repository —
the footprint selection fed to dagre, the orientation pair, and the
center-to-top-left conversion — is embedded faithfully.
-/

/-- Diamond test `node.data?.nodeType === 'condition' || node.type === 'control'`
(lines 34 and 46): which nodes get the diamond footprint. -/
def isDiamond (n : CNode) : Bool :=
  isStr n.nodeType "condition" || isStr n.type "control"

/-- The bounding box handed to dagre: 300×150 for diamonds, 250×120
otherwise (lines 35 and 47–48). -/
def footprint (n : CNode) : Int × Int :=
  if isDiamond n then (300, 150) else (250, 120)

/-- A layouted node: the canonical node with its `position` overwritten by
the computed top-left anchor, plus the two routing orientations. -/
structure PNode where
  node : CNode
  targetPosition : String
  sourcePosition : String
  deriving Repr, DecidableEq

/-- Lines 21–62 with dagre abstracted as `pos`: assign footprints, convert
dagre's node centers to top-left anchors, set the orientation pair from the
direction, and return the edges untouched. -/
def getLayoutedElements (pos : String → Int × Int) (nodes : List CNode)
    (edges : List CEdge) (direction : String) : List PNode × List CEdge :=
  let isHorizontal := direction == "LR"
  (nodes.map (fun n =>
      let d := footprint n
      let c := pos n.id
      let newPos := JVal.obj [("x", .num (c.1 - d.1 / 2)), ("y", .num (c.2 - d.2 / 2))]
      { node := { n with position := newPos }
        targetPosition := if isHorizontal then "left" else "top"
        sourcePosition := if isHorizontal then "right" else "bottom" }),
   edges)

/-- The source handles `CustomNode.jsx` (lines 145–153) renders for a node
whose `data.nodeType` is `condition` or `switch`: `true` at the top,
`false` at the bottom, and an id-less fallback/sequence handle at the
right, which edges with a nullish `sourceHandle` attach to. Every other
node — including a decision node whose resolved type is `control` but whose
stored tag is not `condition`/`switch` — gets only the single id-less
source handle, which a nullish `sourceHandle` likewise attaches to. -/
def decisionSourceHandles : List (Option String) :=
  [some "true", some "false", none]

/-!
## JSON export of the canonical graph

`WorkflowConsole.jsx`'s `downloadJson` (lines 86–97) serializes with
`JSON.stringify`. Modelled from the spec: §8's round-trip requirement
speaks of "serializing the canonical graph to the export format", so
`exportGraph` below serializes the canonical React Flow node/edge shape the
normalizer builds (the function in the repository serializes the raw
`graphData` instead, which the round-trip theorems make precise).
`JSON.stringify` omits object entries whose value is `undefined`;
`dropUndef` models that at the levels being built, and `jsonClean` states
that a carried-through value contains no `undefined` deeper down, so that
stringify-then-parse is the identity on it. -/
def dropUndef : List (String × JVal) → List (String × JVal)
  | [] => []
  | (_, JVal.undef) :: fs => dropUndef fs
  | (k, v) :: fs => (k, v) :: dropUndef fs

/-- True when a value survives `JSON.stringify` + `JSON.parse` unchanged in
our model: no `undefined` occurs anywhere inside it. -/
def jsonClean : JVal → Bool
  | .undef => false
  | .null => true
  | .bool _ => true
  | .num _ => true
  | .str _ => true
  | .arrNil => true
  | .arrCons x rest => jsonClean x && jsonClean rest
  | .objNil => true
  | .objCons _ v rest => jsonClean v && jsonClean rest

/-- Modelled from the spec: the JSON form of one canonical node in the
React Flow shape the normalizer builds (`id`, `type`, nested `data`,
`position`), with `undefined`-valued entries dropped as `JSON.stringify`
does. -/
def exportNode (n : CNode) : JVal :=
  JVal.obj (dropUndef [
    ("id", .str n.id),
    ("type", n.type),
    ("data", JVal.obj (dropUndef [
        ("label", n.label),
        ("nodeType", n.nodeType),
        ("config", n.config),
        ("params", n.params),
        ("integration_type_name", n.integration_type_name),
        ("task", n.task),
        ("task_display_name", n.task_display_name)])),
    ("position", n.position)])

/-- Modelled from the spec: the JSON form of one processed edge. -/
def exportEdge (e : CEdge) : JVal :=
  JVal.obj (dropUndef [
    ("id", e.id),
    ("source", .str e.source),
    ("target", .str e.target),
    ("sourceHandle", e.sourceHandle),
    ("label", e.label)])

/-- Modelled from the spec: the JSON export of a whole canonical graph in
the simple `{nodes, edges}` shape. -/
def exportGraph (c : CGraph) : JVal :=
  JVal.obj [
    ("nodes", JVal.arr (c.nodes.map exportNode)),
    ("edges", JVal.arr (c.edges.map exportEdge))]

/-- Whether a value is a recognized kind tag held as a string. -/
def typeRecognized (v : JVal) : Bool :=
  match v with
  | .str k => nodeTypeKeys.contains k
  | _ => false

/-- Canonical nodes on which the export round-trips: the resolved kind is a
recognized string tag and agrees with the stored raw tag, the truthy fields
the renormalizer reads back are truthy and JSON-clean, the param map is
empty and the domain hints are absent (re-normalization reads `params` and
the hints from the top level of a raw node, where the export has none, and
overwrites the stored tag with the resolved kind — so nonconforming nodes
do not survive the trip). -/
def GoodNode (n : CNode) : Prop :=
  typeRecognized n.type = true ∧
  n.nodeType = n.type ∧
  truthy n.label = true ∧ jsonClean n.label = true ∧
  truthy n.config = true ∧ jsonClean n.config = true ∧
  truthy n.position = true ∧ jsonClean n.position = true ∧
  n.params = .objNil ∧
  n.integration_type_name = .undef ∧
  n.task = .undef ∧
  n.task_display_name = .undef

instance (n : CNode) : Decidable (GoodNode n) := by
  unfold GoodNode; infer_instance

/-- Whether a value is a string. -/
def isStrVal : JVal → Bool
  | .str _ => true
  | _ => false

/-- Processed edges on which the export round-trips against the node list
`ns`: nonempty string endpoints, a truthy JSON-clean id, a string label, a
JSON-clean (or absent) handle, and a branch already consistent with the
label when the source is a decision node (re-processing re-derives the
handle from such a label). -/
def GoodEdge (ns : List CNode) (e : CEdge) : Prop :=
  e.source ≠ "" ∧ e.target ≠ "" ∧
  truthy e.id = true ∧ jsonClean e.id = true ∧
  isStrVal e.label = true ∧
  (e.sourceHandle = .undef ∨ jsonClean e.sourceHandle = true) ∧
  (isDecisionNode (findNode ns e.source) = true → truthy e.label = true →
    (lowerString (jToString e.label) = "true" → e.sourceHandle = .str "true") ∧
    (lowerString (jToString e.label) = "false" → e.sourceHandle = .str "false"))

instance (ns : List CNode) (e : CEdge) : Decidable (GoodEdge ns e) := by
  unfold GoodEdge; infer_instance

/-!
## Safety predicate for normalization

`safeInput` marks the raw inputs on which the normalization effect cannot
throw: the selected node/edge containers are genuine arrays (or falsy, so
the `|| []` default kicks in), their elements are not nullish, and — when
the nested shape is taken — the designated record's `workflow_data` is
accessible. -/
def safeElems : List JVal → Bool
  | [] => true
  | x :: xs =>
      (match x with
       | JVal.undef => false
       | JVal.null => false
       | _ => true) && safeElems xs

/-- A selected container is safe when `v || []` is a genuine array with
non-nullish elements. -/
def safeSelected (v : JVal) : Bool :=
  match asArray (jOr v (.arr [])) with
  | .ok xs => safeElems xs
  | .error _ => false

/-- Safety of the simple-shape read (`graphData.nodes`/`graphData.edges`). -/
def safeSimple (g : JVal) : Bool :=
  match getF g "nodes", getF g "edges" with
  | .ok nsv, .ok esv => safeSelected nsv && safeSelected esv
  | _, _ => false

/-- Safety of the whole normalization effect on `g`. -/
def safeInput (g : JVal) : Bool :=
  match getF g "workflows" with
  | .error _ => false
  | .ok ws =>
    if truthy ws then
      match getIdx ws 0 with
      | .error _ => false
      | .ok w0 =>
        if truthy w0 then
          match getF w0 "workflow_data" with
          | .error _ => false
          | .ok w =>
            match getF w "nodes", getF w "connections" with
            | .ok nsv, .ok esv => safeSelected nsv && safeSelected esv
            | _, _ => false
        else safeSimple g
    else safeSimple g

/-- The raw node list the shape detection selects (after the array check). -/
def selectedRawNodes (g : JVal) : Except String (List JVal) := do
  let sel ← selectRaw g
  asArray sel.1

/-- The raw edge list the shape detection selects (after the array check). -/
def selectedRawEdges (g : JVal) : Except String (List JVal) := do
  let sel ← selectRaw g
  asArray sel.2

/-- The ten recognized kind tags the spec enumerates (the `nodeTypes` keys
minus the `default` fallback entry). -/
def recognizedTagList : List String :=
  ["trigger", "action", "condition", "utility", "control", "http",
   "integration", "script", "log", "webhook"]

/-!
## Helper lemmas
-/

theorem okBind {ε α β : Type} (a : α) (f : α → Except ε β) :
    (Except.ok a >>= f) = f a := rfl

theorem errBind {ε α β : Type} (e : ε) (f : α → Except ε β) :
    ((Except.error e : Except ε α) >>= f) = .error e := rfl

theorem exceptBind_ok {ε α β : Type} {x : Except ε α} {f : α → Except ε β} {b : β}
    (h : (x >>= f) = .ok b) : ∃ a, x = .ok a ∧ f a = .ok b := by
  cases x with
  | error e => exact Except.noConfusion h
  | ok a => exact ⟨a, rfl, h⟩

theorem truthy_arr (xs : List JVal) : truthy (JVal.arr xs) = true := by
  cases xs <;> rfl

theorem asArray_arr (xs : List JVal) : asArray (JVal.arr xs) = .ok xs := by
  induction xs with
  | nil => rfl
  | cons x rest ih => simp [JVal.arr, asArray, ih, Except.map]

theorem truthy_ne_undef {v : JVal} (h : truthy v = true) : v ≠ .undef := by
  intro hv; subst hv; simp [truthy] at h

theorem truthy_ne_null {v : JVal} (h : truthy v = true) : v ≠ .null := by
  intro hv; subst hv; simp [truthy] at h

theorem getF_eq_ok {v : JVal} (h1 : v ≠ .undef) (h2 : v ≠ .null) (key : String) :
    getF v key = .ok (lookupAny v key) := by
  cases v <;> first | rfl | exact absurd rfl h1 | exact absurd rfl h2

theorem jOr_of_truthy {a : JVal} (b : JVal) (h : truthy a = true) : jOr a b = a := by
  simp [jOr, h]

theorem jOr_of_falsy {a : JVal} (b : JVal) (h : truthy a = false) : jOr a b = b := by
  simp [jOr, h]

theorem normNode_isOk {x : JVal} (h1 : x ≠ .undef) (h2 : x ≠ .null) :
    ∃ c, normNode x = .ok c := by
  cases x <;> first | exact ⟨_, rfl⟩ | exact absurd rfl h1 | exact absurd rfl h2

theorem processEdge_isOk (ns : List CNode) (k : Nat) {x : JVal}
    (h1 : x ≠ .undef) (h2 : x ≠ .null) : ∃ ce, processEdge ns k x = .ok ce := by
  cases x <;> first | exact ⟨_, rfl⟩ | exact absurd rfl h1 | exact absurd rfl h2

theorem safeElems_cons {y : JVal} {rest : List JVal}
    (h : safeElems (y :: rest) = true) :
    (y ≠ .undef ∧ y ≠ .null) ∧ safeElems rest = true := by
  cases y <;> simp [safeElems] at h ⊢ <;> exact h

theorem safeElems_mem {l : List JVal} (h : safeElems l = true) :
    ∀ x ∈ l, x ≠ .undef ∧ x ≠ .null := by
  induction l with
  | nil => intro x hx; cases hx
  | cons y rest ih =>
      intro x hx
      obtain ⟨hy, hrest⟩ := safeElems_cons h
      rcases List.mem_cons.mp hx with rfl | hx'
      · exact hy
      · exact ih hrest x hx'

theorem normNodes_isOk {l : List JVal} (h : ∀ x ∈ l, x ≠ .undef ∧ x ≠ .null) :
    ∃ cs, normNodes l = .ok cs := by
  induction l with
  | nil => exact ⟨[], rfl⟩
  | cons x rest ih =>
      obtain ⟨hx1, hx2⟩ := h x (List.mem_cons_self x rest)
      obtain ⟨c, hc⟩ := normNode_isOk hx1 hx2
      obtain ⟨cs, hcs⟩ := ih (fun y hy => h y (List.mem_cons_of_mem x hy))
      exact ⟨c :: cs, by simp [normNodes, hc, hcs, okBind]⟩

theorem processEdges_isOk (ns : List CNode) {l : List JVal}
    (h : ∀ x ∈ l, x ≠ .undef ∧ x ≠ .null) (k : Nat) :
    ∃ ces, processEdges ns k l = .ok ces := by
  induction l generalizing k with
  | nil => exact ⟨[], rfl⟩
  | cons x rest ih =>
      obtain ⟨hx1, hx2⟩ := h x (List.mem_cons_self x rest)
      obtain ⟨ce, hce⟩ := processEdge_isOk ns k hx1 hx2
      obtain ⟨ces, hces⟩ := ih (fun y hy => h y (List.mem_cons_of_mem x hy)) (k + 1)
      exact ⟨ce :: ces, by simp [processEdges, hce, hces, okBind]⟩

theorem normNodes_pointwise {l : List JVal} {cs : List CNode}
    (h : normNodes l = .ok cs) :
    cs.length = l.length ∧
    ∀ i (hi : i < l.length) (hi' : i < cs.length),
      normNode (l.get ⟨i, hi⟩) = .ok (cs.get ⟨i, hi'⟩) := by
  induction l generalizing cs with
  | nil =>
      cases h
      exact ⟨rfl, fun i hi _ => absurd hi (by simp)⟩
  | cons x rest ih =>
      have h' : (normNode x >>= fun c =>
          normNodes rest >>= fun cs2 => pure (c :: cs2)) = .ok cs := h
      obtain ⟨c, hc, h2⟩ := exceptBind_ok h'
      obtain ⟨cs2, hcs2, h3⟩ := exceptBind_ok h2
      have hcs : cs = c :: cs2 := by
        have : Except.ok (ε := String) (c :: cs2) = .ok cs := h3
        exact (Except.ok.inj this).symm
      subst hcs
      obtain ⟨hlen, hpt⟩ := ih hcs2
      refine ⟨by simp [hlen], ?_⟩
      intro i hi hi'
      cases i with
      | zero => exact hc
      | succ j =>
          have hj : j < rest.length := by simpa using hi
          have hj' : j < cs2.length := by simpa using hi'
          exact hpt j hj hj'

theorem processEdges_pointwise {ns : List CNode} {k : Nat} {l : List JVal}
    {ces : List CEdge} (h : processEdges ns k l = .ok ces) :
    ces.length = l.length ∧
    ∀ i (hi : i < l.length) (hi' : i < ces.length),
      processEdge ns (k + i) (l.get ⟨i, hi⟩) = .ok (ces.get ⟨i, hi'⟩) := by
  induction l generalizing k ces with
  | nil =>
      cases h
      exact ⟨rfl, fun i hi _ => absurd hi (by simp)⟩
  | cons x rest ih =>
      have h' : (processEdge ns k x >>= fun ce =>
          processEdges ns (k + 1) rest >>= fun ces2 => pure (ce :: ces2)) = .ok ces := h
      obtain ⟨ce, hce, h2⟩ := exceptBind_ok h'
      obtain ⟨ces2, hces2, h3⟩ := exceptBind_ok h2
      have hc : ces = ce :: ces2 := by
        have : Except.ok (ε := String) (ce :: ces2) = .ok ces := h3
        exact (Except.ok.inj this).symm
      subst hc
      obtain ⟨hlen, hpt⟩ := ih hces2
      refine ⟨by simp [hlen], ?_⟩
      intro i hi hi'
      cases i with
      | zero =>
          have hk : k + 0 = k := rfl
          rw [hk]
          exact hce
      | succ j =>
          have hj : j < rest.length := by simpa using hi
          have hj' : j < ces2.length := by simpa using hi'
          have hstep := hpt j hj hj'
          have heq : k + 1 + j = k + (j + 1) := by omega
          rw [heq] at hstep
          exact hstep

theorem normNode_closed_form {n : JVal} (h1 : n ≠ .undef) (h2 : n ≠ .null) :
    normNode n = .ok {
      id := jToString (lookupAny n "id")
      type :=
        if nodeTypeKeys.contains
             (jToString (jOr (lookupAny n "type") (.str "default")))
            || objectProtoKeys.contains
             (jToString (jOr (lookupAny n "type") (.str "default"))) then
          jOr (lookupAny n "type") (.str "default")
        else .str "default"
      label := jOr (jOr (lookupAny n "label") (optF (lookupAny n "data") "label"))
        (.str "Untitled")
      nodeType := jOr (lookupAny n "type") (optF (lookupAny n "data") "nodeType")
      config := jOr (jOr (lookupAny n "config") (optF (lookupAny n "data") "config"))
        (.obj [])
      params := jOr (lookupAny n "params") (.obj [])
      integration_type_name := lookupAny n "integration_type_name"
      task := lookupAny n "task"
      task_display_name := lookupAny n "task_display_name"
      position := jOr (lookupAny n "position") (.obj [("x", .num 0), ("y", .num 0)]) } := by
  simp [normNode, getF_eq_ok h1 h2, okBind]

theorem processEdge_closed_form (ns : List CNode) (idx : Nat) {e : JVal}
    (h1 : e ≠ .undef) (h2 : e ≠ .null) :
    processEdge ns idx e =
      (let source := jToString (jOr (lookupAny e "source") (lookupAny e "from"))
       let isDecision := isDecisionNode (findNode ns source)
       let elabel := lookupAny e "label"
       let condValue := optF (lookupAny e "condition") "value"
       let sh1 :=
         if isDecision && truthy elabel then
           if lowerString (jToString elabel) == "true" then JVal.str "true"
           else if lowerString (jToString elabel) == "false" then JVal.str "false"
           else lookupAny e "sourceHandle"
         else lookupAny e "sourceHandle"
       .ok {
         id := jOr (lookupAny e "id") (.str ("e-" ++ toString idx))
         source := source
         target := jToString (jOr (lookupAny e "target") (lookupAny e "to"))
         sourceHandle :=
           if isDecision && !truthy sh1 && truthy condValue then condValue else sh1
         label := jOr elabel
           (if truthy condValue then .str (upperString (jToString condValue))
            else .str "") }) := by
  simp [processEdge, getF_eq_ok h1 h2, okBind]

theorem contains_ne_empty {k : String} (h : nodeTypeKeys.contains k = true) :
    k ≠ "" := by
  intro hk; subst hk; exact absurd h (by decide)

theorem recognized_subset {s : String} (h : s ∈ recognizedTagList) :
    nodeTypeKeys.contains s = true := by
  fin_cases h <;> decide

theorem truthy_str_of_ne {s : String} (h : s ≠ "") : truthy (.str s) = true := by
  simp [truthy, h]

theorem proto_contains_ne_empty {k : String}
    (h : objectProtoKeys.contains k = true) : k ≠ "" := by
  intro hk; subst hk; exact absurd h (by decide)

/-- C5 (amended): a recognized string kind tag is kept as the canonical
kind, an absent tag — and an unrecognized string tag that is not an
`Object.prototype` property name — resolves to the `default` fallback kind,
and normalization never errors on the tag; but a tag naming a truthy
inherited `Object.prototype` property (`toString`, `constructor`,
`hasOwnProperty`, …) leaks through the `nodeTypes[nodeType]` truthiness
check and is kept as the canonical kind even though it is not a recognized
enumeration value. The canonical label still defaults to the literal
`Untitled` when the raw node supplies no label (neither a `label` field nor
`data.label`). -/
theorem c5_amended_kind_resolution (n : JVal)
    (h1 : n ≠ .undef) (h2 : n ≠ .null) :
    ∃ c, normNode n = .ok c ∧
      (∀ s, lookupAny n "type" = .str s → s ∈ recognizedTagList →
        c.type = .str s) ∧
      (∀ s, lookupAny n "type" = .str s → nodeTypeKeys.contains s = false →
        objectProtoKeys.contains s = false → c.type = .str "default") ∧
      (∀ s, lookupAny n "type" = .str s → objectProtoKeys.contains s = true →
        c.type = .str s) ∧
      (lookupAny n "type" = .undef → c.type = .str "default") ∧
      (lookupAny n "label" = .undef → optF (lookupAny n "data") "label" = .undef →
        c.label = .str "Untitled") := by
  refine ⟨_, normNode_closed_form h1 h2, ?_, ?_, ?_, ?_, ?_⟩
  · intro s hty hrec
    have hk := recognized_subset hrec
    have hne := contains_ne_empty hk
    simp only [hty, jOr_of_truthy _ (truthy_str_of_ne hne), jToString, hk,
      Bool.true_or, if_true]
  · intro s hty hnot hnotp
    by_cases hs : s = ""
    · subst hs
      simp only [hty]
      have hfalsy : truthy (JVal.str "") = false := by simp [truthy]
      simp [jOr_of_falsy _ hfalsy, jToString]
    · simp only [hty, jOr_of_truthy _ (truthy_str_of_ne hs), jToString, hnot, hnotp]
      simp
  · intro s hty hp
    have hne := proto_contains_ne_empty hp
    simp only [hty, jOr_of_truthy _ (truthy_str_of_ne hne), jToString, hp,
      Bool.or_true, if_true]
  · intro hty
    simp [hty, jOr, truthy, jToString]
  · intro hlbl hdat
    simp [hlbl, hdat, jOr, truthy]

theorem c5_amended_witness :
    (∃ c, normNode (JVal.obj [("type", .str "webhook")]) = .ok c ∧
      c.type = .str "webhook") ∧
    (∃ c, normNode (JVal.obj [("type", .str "frobnicate")]) = .ok c ∧
      c.type = .str "default") ∧
    (∃ c, normNode (JVal.obj [("type", .str "toString")]) = .ok c ∧
      c.type = .str "toString") ∧
    (∃ c, normNode (JVal.obj [("id", .num 7)]) = .ok c ∧
      c.type = .str "default" ∧ c.label = .str "Untitled") := by
  refine ⟨?_, ?_, ?_, ?_⟩
  · obtain ⟨c, hc, hrec, _, _, _, _⟩ :=
      c5_amended_kind_resolution (JVal.obj [("type", .str "webhook")])
        (by decide) (by decide)
    exact ⟨c, hc, hrec "webhook" rfl (by decide)⟩
  · obtain ⟨c, hc, _, hun, _, _, _⟩ :=
      c5_amended_kind_resolution (JVal.obj [("type", .str "frobnicate")])
        (by decide) (by decide)
    exact ⟨c, hc, hun "frobnicate" rfl (by decide) (by decide)⟩
  · obtain ⟨c, hc, _, _, hproto, _, _⟩ :=
      c5_amended_kind_resolution (JVal.obj [("type", .str "toString")])
        (by decide) (by decide)
    exact ⟨c, hc, hproto "toString" rfl (by decide)⟩
  · obtain ⟨c, hc, _, _, _, habs, hlbl⟩ :=
      c5_amended_kind_resolution (JVal.obj [("id", .num 7)])
        (by decide) (by decide)
    exact ⟨c, hc, habs rfl, hlbl rfl rfl⟩

/-- C5 counterexample: the raw kind tag `toString` is not one of the ten
recognized enumeration values, yet `nodeTypes['toString']` finds the truthy
inherited `Object.prototype.toString`, so the node's canonical kind is
`toString` — not the generic fallback `default` the claim requires for
every unrecognized tag. -/
theorem c5_counterexample :
    (normalizeGraph (JVal.obj [
        ("nodes", JVal.arr [JVal.obj [("id", .num 1), ("type", .str "toString")]]),
        ("edges", JVal.arr [])])).map (fun c => c.nodes.map CNode.type) =
      .ok [.str "toString"] ∧
    "toString" ∉ recognizedTagList ∧
    JVal.str "toString" ≠ JVal.str "default" :=
  ⟨rfl, by decide, by decide⟩

/-- C6 (amended): the `source`/`target` endpoint fields are preferred only
when truthy; a falsy `source` or `target` (such as the number 0) falls back
to `from`/`to` even though it is present; the resolved endpoints are
coerced to strings. -/
theorem c6_amended_endpoint_precedence (ns : List CNode) (idx : Nat) (e : JVal)
    (h1 : e ≠ .undef) (h2 : e ≠ .null) :
    ∃ ce, processEdge ns idx e = .ok ce ∧
      (truthy (lookupAny e "source") = true →
        ce.source = jToString (lookupAny e "source")) ∧
      (truthy (lookupAny e "source") = false →
        ce.source = jToString (lookupAny e "from")) ∧
      (truthy (lookupAny e "target") = true →
        ce.target = jToString (lookupAny e "target")) ∧
      (truthy (lookupAny e "target") = false →
        ce.target = jToString (lookupAny e "to")) := by
  refine ⟨_, processEdge_closed_form ns idx h1 h2, ?_, ?_, ?_, ?_⟩
  · intro h; simp [jOr_of_truthy _ h]
  · intro h; simp [jOr_of_falsy _ h]
  · intro h; simp [jOr_of_truthy _ h]
  · intro h; simp [jOr_of_falsy _ h]

theorem c6_amended_witness :
    ∃ ce, processEdge []  0
        (JVal.obj [("source", .num 0), ("from", .num 5), ("target", .num 1)]) =
        .ok ce ∧
      ce.source = "5" ∧ ce.target = "1" := by
  obtain ⟨ce, hce, _, hfall, htgt, _⟩ :=
    c6_amended_endpoint_precedence [] 0
      (JVal.obj [("source", .num 0), ("from", .num 5), ("target", .num 1)])
      (by decide) (by decide)
  exact ⟨ce, hce, hfall (by decide), htgt (by decide)⟩

/-- C6 counterexample: an edge carrying both endpoint pairs whose `source`
is the (falsy) number 0 resolves its canonical source to the string form of
`from`, not of `source` — the claim that `source/target` always wins when
both pairs are present fails. -/
theorem c6_counterexample :
    (normalizeGraph (JVal.obj [
        ("nodes", JVal.arr []),
        ("edges", JVal.arr [JVal.obj
          [("source", .num 0), ("from", .num 5), ("target", .num 1)]])])).map
      (fun c => c.edges.map CEdge.source) = .ok ["5"] ∧
    ("5" : String) ≠ "0" := by
  exact ⟨rfl, by decide⟩

/-- C3 (amended): when the nested container `workflows` is present and
truthy but its first element is falsy (absent, as for an empty list),
normalization falls back to the simple-shape `nodes`/`edges` fields of the
same object rather than treating the input as empty. -/
theorem c3_amended_simple_shape_fallback (g wsv w0 : JVal)
    (hws : getF g "workflows" = .ok wsv)
    (htr : truthy wsv = true)
    (h0 : getIdx wsv 0 = .ok w0)
    (hf : truthy w0 = false) :
    selectRaw g = .ok (jOr (lookupAny g "nodes") (.arr []),
      jOr (lookupAny g "edges") (.arr [])) := by
  have h1 : g ≠ .undef := by intro h; subst h; simp [getF] at hws
  have h2 : g ≠ .null := by intro h; subst h; simp [getF] at hws
  simp [selectRaw, hws, htr, h0, hf, okBind, getF_eq_ok h1 h2]

theorem c3_amended_witness :
    selectRaw (JVal.obj [
        ("workflows", JVal.arr []),
        ("nodes", JVal.arr [JVal.obj [("id", .num 1)]]),
        ("edges", JVal.arr [])]) =
      .ok (JVal.arr [JVal.obj [("id", .num 1)]], JVal.arr []) := by
  exact c3_amended_simple_shape_fallback _ _ _ rfl rfl rfl rfl

/-- C3 counterexample: an object with an empty `workflows` list alongside
simple-shape `nodes`/`edges` fields does not normalize to an empty graph —
the simple-shape node is picked up, so the canonical node set has one
element, not zero. -/
theorem c3_counterexample :
    (normalizeGraph (JVal.obj [
        ("workflows", JVal.arr []),
        ("nodes", JVal.arr [JVal.obj [("id", .num 1)]]),
        ("edges", JVal.arr [])])).map (fun c => c.nodes.length) = .ok 1 ∧
    (1 : Nat) ≠ 0 := by
  exact ⟨rfl, by decide⟩


theorem truthy_undef : truthy .undef = false := rfl

theorem truthyTrueTok : truthy (JVal.str "true") = true := by decide

theorem truthyFalseTok : truthy (JVal.str "false") = true := by decide

/-- C1 (amended): for an edge leaving a decision-kind source node that
carries a truthy label whose case-insensitive value is `true` or `false`,
the branch indicator of the canonical edge equals the mapping derived from
the label — it overwrites any explicit handle/port identifier the edge
carries, so on a conflict the label wins, not the handle. -/
theorem c1_amended_label_overrides_handle (ns : List CNode) (idx : Nat) (e : JVal)
    (h1 : e ≠ .undef) (h2 : e ≠ .null)
    (hdec : isDecisionNode (findNode ns
      (jToString (jOr (lookupAny e "source") (lookupAny e "from")))) = true)
    (hlbl : truthy (lookupAny e "label") = true) :
    ∃ ce, processEdge ns idx e = .ok ce ∧
      (lowerString (jToString (lookupAny e "label")) = "true" →
        ce.sourceHandle = .str "true") ∧
      (lowerString (jToString (lookupAny e "label")) = "false" →
        ce.sourceHandle = .str "false") := by
  refine ⟨_, processEdge_closed_form ns idx h1 h2, ?_, ?_⟩
  · intro hlow
    simp [hdec, hlbl, hlow, truthyTrueTok]
  · intro hlow
    simp [hdec, hlbl, hlow, truthyFalseTok]

theorem c1_amended_witness :
    ∃ ce, processEdge
        [{ id := "1", type := .str "condition", label := .str "Check",
           nodeType := .str "condition", config := .objNil, params := .objNil,
           integration_type_name := .undef, task := .undef,
           task_display_name := .undef, position := .objNil }] 0
        (JVal.obj [("source", .num 1), ("target", .num 2),
          ("sourceHandle", .str "true"), ("label", .str "False")]) = .ok ce ∧
      ce.sourceHandle = .str "false" := by
  obtain ⟨ce, hce, _, hfalse⟩ :=
    c1_amended_label_overrides_handle
      [{ id := "1", type := .str "condition", label := .str "Check",
         nodeType := .str "condition", config := .objNil, params := .objNil,
         integration_type_name := .undef, task := .undef,
         task_display_name := .undef, position := .objNil }] 0
      (JVal.obj [("source", .num 1), ("target", .num 2),
        ("sourceHandle", .str "true"), ("label", .str "False")])
      (by decide) (by decide) (by decide) (by decide)
  exact ⟨ce, hce, hfalse (by decide)⟩

/-- C1 counterexample: a decision node's outgoing edge carrying the
explicit handle `true` and the conflicting label `False` resolves its
branch to `false` — the mapping derived from the label — not to the
explicit handle `true` the claim requires. -/
theorem c1_counterexample :
    (normalizeGraph (JVal.obj [
        ("nodes", JVal.arr [JVal.obj [("id", .num 1), ("type", .str "condition")]]),
        ("edges", JVal.arr [JVal.obj [("source", .num 1), ("target", .num 2),
          ("sourceHandle", .str "true"), ("label", .str "False")]])])).map
      (fun c => c.edges.map CEdge.sourceHandle) = .ok [.str "false"] ∧
    JVal.str "false" ≠ JVal.str "true" := by
  exact ⟨rfl, by decide⟩

/-- C7: an outgoing edge of a decision-kind node with no explicit handle,
no label mapping case-insensitively to `true`/`false`, and no (truthy)
condition value is still emitted — the processed edge list keeps one edge
per raw edge — and gets no affirmative/negative branch: its `sourceHandle`
stays `undefined`, so it departs from the id-less third fallback/sequence
handle of `CustomNode.jsx` (`decisionSourceHandles`). -/
theorem c7_unresolved_branch_kept (ns : List CNode) (k : Nat)
    (res : List JVal) (ces : List CEdge) (i : Nat) (hi : i < res.length)
    (e : JVal)
    (hres : processEdges ns k res = .ok ces)
    (he : res.get ⟨i, hi⟩ = e)
    (hdec : isDecisionNode (findNode ns
      (jToString (jOr (lookupAny e "source") (lookupAny e "from")))) = true)
    (hhandle : lookupAny e "sourceHandle" = .undef)
    (hlbl : truthy (lookupAny e "label") = false ∨
      (lowerString (jToString (lookupAny e "label")) ≠ "true" ∧
       lowerString (jToString (lookupAny e "label")) ≠ "false"))
    (hcond : truthy (optF (lookupAny e "condition") "value") = false) :
    ces.length = res.length ∧
    ∀ hi' : i < ces.length, (ces.get ⟨i, hi'⟩).sourceHandle = .undef := by
  obtain ⟨hlen, hpt⟩ := processEdges_pointwise hres
  refine ⟨hlen, ?_⟩
  intro hi'
  have hpe := hpt i hi hi'
  rw [he] at hpe
  have h1 : e ≠ .undef := by
    intro hu; subst hu; exact Except.noConfusion hpe
  have h2 : e ≠ .null := by
    intro hu; subst hu; exact Except.noConfusion hpe
  rw [processEdge_closed_form ns (k + i) h1 h2] at hpe
  have hval := Except.ok.inj hpe
  rw [← hval]
  rcases hlbl with hfalsy | ⟨hnt, hnf⟩
  · simp [hdec, hfalsy, hhandle, hcond, truthy_undef]
  · simp [hdec, hhandle, hcond, hnt, hnf, truthy_undef]

theorem c7_witness :
    ([{ id := JVal.str "e-0", source := "1", target := "2",
        sourceHandle := .undef, label := JVal.str "" }] : List CEdge).length =
      [JVal.obj [("source", .num 1), ("target", .num 2)]].length ∧
    (([{ id := JVal.str "e-0", source := "1", target := "2",
          sourceHandle := .undef, label := JVal.str "" }] : List CEdge).get
      ⟨0, Nat.zero_lt_one⟩).sourceHandle = .undef := by
  have h := c7_unresolved_branch_kept
    [{ id := "1", type := .str "condition", label := .str "Check",
       nodeType := .str "condition", config := .objNil, params := .objNil,
       integration_type_name := .undef, task := .undef,
       task_display_name := .undef, position := .objNil }] 0
    [JVal.obj [("source", .num 1), ("target", .num 2)]]
    [{ id := JVal.str "e-0", source := "1", target := "2",
       sourceHandle := .undef, label := JVal.str "" }] 0
    Nat.zero_lt_one
    (JVal.obj [("source", .num 1), ("target", .num 2)])
    rfl rfl (by decide) (by decide) (Or.inl (by decide)) (by decide)
  exact ⟨h.1, h.2 Nat.zero_lt_one⟩

theorem safeSelected_spec {v : JVal} (h : safeSelected v = true) :
    ∃ xs, asArray (jOr v (.arr [])) = .ok xs ∧ safeElems xs = true := by
  unfold safeSelected at h
  cases hA : asArray (jOr v (.arr [])) with
  | error e => rw [hA] at h; simp at h
  | ok xs => rw [hA] at h; exact ⟨xs, rfl, h⟩

theorem safeSimple_spec {g : JVal} (h : safeSimple g = true) :
    ∃ nsv esv, getF g "nodes" = .ok nsv ∧ getF g "edges" = .ok esv ∧
      safeSelected nsv = true ∧ safeSelected esv = true := by
  unfold safeSimple at h
  cases hn : getF g "nodes" with
  | error e => rw [hn] at h; simp at h
  | ok nsv =>
      cases he : getF g "edges" with
      | error e2 => rw [hn, he] at h; simp at h
      | ok esv =>
          rw [hn, he] at h
          have h2 : (safeSelected nsv && safeSelected esv) = true := h
          exact ⟨nsv, esv, rfl, rfl, (Bool.and_eq_true _ _).mp h2 |>.1,
            (Bool.and_eq_true _ _).mp h2 |>.2⟩

theorem normalizeGraph_isOk_of {g nsv esv : JVal}
    (hsel : selectRaw g = .ok (jOr nsv (.arr []), jOr esv (.arr [])))
    (hsn : safeSelected nsv = true) (hse : safeSelected esv = true) :
    ∃ c, normalizeGraph g = .ok c := by
  obtain ⟨xs, hxs, hex⟩ := safeSelected_spec hsn
  obtain ⟨ys, hys, hey⟩ := safeSelected_spec hse
  obtain ⟨cs, hcs⟩ := normNodes_isOk (safeElems_mem hex)
  obtain ⟨ces, hces⟩ := processEdges_isOk cs (safeElems_mem hey) 0
  exact ⟨⟨cs, ces⟩, by simp [normalizeGraph, hsel, okBind, hxs, hys, hcs, hces]⟩

/-- C2 (amended): normalization runs to completion (never raises) on every
input whose shape selection yields genuine arrays — or falsy values that
default to `[]` — with non-nullish elements, and whose designated nested
record, when the nested shape is taken, has an accessible `workflow_data`;
outside `safeInput`, normalization can throw (see the counterexample). -/
theorem c2_amended_no_throw_on_safe_inputs (g : JVal) (h : safeInput g = true) :
    ∃ c, normalizeGraph g = .ok c := by
  unfold safeInput at h
  split at h
  · simp at h
  next ws hws =>
    split at h
    next htr =>
      split at h
      · simp at h
      next w0 hix =>
        split at h
        next htr0 =>
          split at h
          · simp at h
          next w hwd =>
            split at h
            next nsv esv hn hc =>
              obtain ⟨hsn, hse⟩ := (Bool.and_eq_true _ _).mp h
              refine normalizeGraph_isOk_of ?_ hsn hse
              simp [selectRaw, hws, htr, hix, htr0, hwd, hn, hc, okBind]
            next hne => simp at h
        next htr0 =>
          obtain ⟨nsv, esv, hn, he, hsn, hse⟩ := safeSimple_spec h
          refine normalizeGraph_isOk_of ?_ hsn hse
          have htr0f : truthy w0 = false := by
            revert htr0; cases truthy w0 <;> simp
          simp [selectRaw, hws, htr, hix, htr0f, hn, he, okBind]
    next htr =>
      obtain ⟨nsv, esv, hn, he, hsn, hse⟩ := safeSimple_spec h
      refine normalizeGraph_isOk_of ?_ hsn hse
      have htrf : truthy ws = false := by
        revert htr; cases truthy ws <;> simp
      simp [selectRaw, hws, htrf, hn, he, okBind]

theorem c2_amended_witness :
    safeInput (JVal.obj [("workflows", JVal.arr [JVal.obj [("workflow_data",
        JVal.obj [("nodes", JVal.arr [JVal.obj [("id", .num 1)]]),
          ("connections", JVal.arr [JVal.obj
            [("source", .num 1), ("target", .num 1)]])])]])]) = true ∧
    ∃ c, normalizeGraph (JVal.obj [("workflows", JVal.arr [JVal.obj [("workflow_data",
        JVal.obj [("nodes", JVal.arr [JVal.obj [("id", .num 1)]]),
          ("connections", JVal.arr [JVal.obj
            [("source", .num 1), ("target", .num 1)]])])]])]) = .ok c :=
  ⟨by decide, c2_amended_no_throw_on_safe_inputs _ (by decide)⟩

/-- C2 counterexample: on the nested-shape input whose first workflow
record lacks the `workflow_data` object — an input the claim says must
normalize to a best-effort result — normalization throws reading `nodes`
of `undefined`, so it does not run to completion. -/
theorem c2_counterexample :
    normalizeGraph (JVal.obj [("workflows", JVal.arr [JVal.obj []])]) =
      .error "nodes" := rfl

/-- C8 (amended): layout gives a node the larger 300×150 footprint exactly
when its stored raw kind tag (`data.nodeType`) is `condition` or its
resolved type is `control` — not exactly when its resolved kind is a
decision kind, since a node whose raw tag is `condition` but whose
resolved kind fell back to `default` is also laid out as a diamond (see
the counterexample); every other node gets 250×120; and layout changes
only the position (and routing orientations) of a node, never the
canonical data, and returns the edges untouched. -/
theorem c8_amended_footprint (pos : String → Int × Int) (ns : List CNode)
    (es : List CEdge) (dir : String) :
    (getLayoutedElements pos ns es dir).2 = es ∧
    (getLayoutedElements pos ns es dir).1.length = ns.length ∧
    ∀ i (hi : i < ns.length) (hi' : i < (getLayoutedElements pos ns es dir).1.length),
      ((getLayoutedElements pos ns es dir).1.get ⟨i, hi'⟩).node =
        { ns.get ⟨i, hi⟩ with position := JVal.obj [
            ("x", .num ((pos (ns.get ⟨i, hi⟩).id).1 - (footprint (ns.get ⟨i, hi⟩)).1 / 2)),
            ("y", .num ((pos (ns.get ⟨i, hi⟩).id).2 - (footprint (ns.get ⟨i, hi⟩)).2 / 2))] } ∧
      (footprint (ns.get ⟨i, hi⟩) = (300, 150) ↔
        (isStr (ns.get ⟨i, hi⟩).nodeType "condition" = true ∨
         isStr (ns.get ⟨i, hi⟩).type "control" = true)) ∧
      (footprint (ns.get ⟨i, hi⟩) = (300, 150) ∨
       footprint (ns.get ⟨i, hi⟩) = (250, 120)) := by
  refine ⟨rfl, by simp [getLayoutedElements], ?_⟩
  intro i hi hi'
  refine ⟨?_, ?_, ?_⟩
  · simp [getLayoutedElements, List.get_eq_getElem, List.getElem_map, footprint]
  · by_cases hd : isDiamond (ns.get ⟨i, hi⟩) = true
    · rw [footprint, if_pos hd]
      constructor
      · intro _
        exact (Bool.or_eq_true _ _).mp (by rwa [isDiamond] at hd)
      · intro _; rfl
    · rw [footprint, if_neg hd]
      constructor
      · intro hfp
        exact absurd hfp (by decide)
      · intro hor
        exact absurd (by rw [isDiamond, Bool.or_eq_true]; exact hor) hd
  · by_cases hd : isDiamond (ns.get ⟨i, hi⟩) = true
    · left; rw [footprint, if_pos hd]
    · right; rw [footprint, if_neg hd]

theorem c8_amended_witness :
    (getLayoutedElements (fun _ => (100, 40))
      [{ id := "1", type := .str "default", label := .str "Check", nodeType := .str "condition", config := .objNil, params := .objNil, integration_type_name := .undef, task := .undef, task_display_name := .undef, position := .objNil }]
      [] "LR").2 = [] ∧
    footprint { id := "1", type := .str "default", label := .str "Check", nodeType := .str "condition", config := .objNil, params := .objNil, integration_type_name := .undef, task := .undef, task_display_name := .undef, position := .objNil } = (300, 150) := by
  have h := c8_amended_footprint (fun s => (100, 40))
    [{ id := "1", type := .str "default", label := .str "Check", nodeType := .str "condition", config := .objNil, params := .objNil, integration_type_name := .undef, task := .undef, task_display_name := .undef, position := .objNil }]
    [] "LR"
  refine ⟨h.1, ?_⟩
  have h2 := (h.2.2 0 Nat.zero_lt_one Nat.zero_lt_one).2.1
  exact h2.mpr (Or.inl (by decide))

/-- C8 counterexample: a raw node with no usable kind tag but a
`data.nodeType` of `condition` normalizes to the (non-decision) canonical
kind `default`, yet layout gives it the larger 300×150 footprint — the
claimed equivalence between the larger footprint and being of decision
kind (`condition`/`control`) fails. -/
theorem c8_counterexample :
    (normalizeGraph (JVal.obj [
        ("nodes", JVal.arr [JVal.obj [("id", .num 1),
          ("data", JVal.obj [("nodeType", .str "condition")])]]),
        ("edges", JVal.arr [])])).map
      (fun c => c.nodes.map (fun n => (n.type, footprint n))) =
      .ok [(.str "default", (300, 150))] ∧
    JVal.str "default" ≠ JVal.str "condition" ∧
    JVal.str "default" ≠ JVal.str "control" :=
  ⟨rfl, by decide, by decide⟩

/-- C9: normalization is deterministic — two runs on the same input agree —
and the canonical output follows the raw input array order: the node and
edge lists have exactly the lengths of the selected raw lists, and the
i-th canonical node (edge) is the normalization of the i-th raw node
(edge, processed at positional index i against the canonical nodes). -/
theorem c9_deterministic_input_order (g : JVal) (c1 c2 : CGraph)
    (h1 : normalizeGraph g = .ok c1) (h2 : normalizeGraph g = .ok c2) :
    c1 = c2 ∧
    (∀ rns, selectedRawNodes g = .ok rns →
      c1.nodes.length = rns.length ∧
      ∀ i (hi : i < rns.length) (hi' : i < c1.nodes.length),
        normNode (rns.get ⟨i, hi⟩) = .ok (c1.nodes.get ⟨i, hi'⟩)) ∧
    (∀ res, selectedRawEdges g = .ok res →
      c1.edges.length = res.length ∧
      ∀ i (hi : i < res.length) (hi' : i < c1.edges.length),
        processEdge c1.nodes i (res.get ⟨i, hi⟩) = .ok (c1.edges.get ⟨i, hi'⟩)) := by
  have hcc : c1 = c2 := by
    rw [h1] at h2
    exact Except.ok.inj h2
  have h1' : (selectRaw g >>= fun sel =>
      asArray sel.1 >>= fun rawNodes =>
      asArray sel.2 >>= fun rawEdges =>
      normNodes rawNodes >>= fun ns2 =>
      processEdges ns2 0 rawEdges >>= fun es2 =>
      pure ⟨ns2, es2⟩) = .ok c1 := h1
  obtain ⟨sel, hsel, hr1⟩ := exceptBind_ok h1'
  obtain ⟨rns0, hrns0, hr2⟩ := exceptBind_ok hr1
  obtain ⟨res0, hres0, hr3⟩ := exceptBind_ok hr2
  obtain ⟨ns2, hns2, hr4⟩ := exceptBind_ok hr3
  obtain ⟨es2, hes2, hpure⟩ := exceptBind_ok hr4
  have hok : Except.ok (ε := String) (⟨ns2, es2⟩ : CGraph) = .ok c1 := hpure
  have hc1 : c1 = ⟨ns2, es2⟩ := (Except.ok.inj hok).symm
  refine ⟨hcc, ?_, ?_⟩
  · intro rns hrns
    have hthis : selectedRawNodes g = .ok rns0 := by
      simp [selectedRawNodes, hsel, okBind, hrns0]
    rw [hrns] at hthis
    have hreq : rns = rns0 := Except.ok.inj hthis
    subst hreq
    obtain ⟨hlen, hpt⟩ := normNodes_pointwise hns2
    subst hc1
    exact ⟨hlen, hpt⟩
  · intro res hres
    have hthis : selectedRawEdges g = .ok res0 := by
      simp [selectedRawEdges, hsel, okBind, hres0]
    rw [hres] at hthis
    have hreq : res = res0 := Except.ok.inj hthis
    subst hreq
    obtain ⟨hlen, hpt⟩ := processEdges_pointwise hes2
    subst hc1
    refine ⟨hlen, ?_⟩
    intro i hi hi'
    have := hpt i hi hi'
    rwa [Nat.zero_add] at this

theorem c9_witness :
    ([{ id := "1", type := JVal.str "default", label := JVal.str "Untitled",
          nodeType := .undef, config := .objNil, params := .objNil,
          integration_type_name := .undef, task := .undef, task_display_name := .undef,
          position := JVal.obj [("x", .num 0), ("y", .num 0)] }] : List CNode).length =
      [JVal.obj [("id", JVal.num 1)]].length := by
  have h := c9_deterministic_input_order
    (JVal.obj [("nodes", JVal.arr [JVal.obj [("id", JVal.num 1)]]),
      ("edges", JVal.arr [])])
    ⟨[{ id := "1", type := JVal.str "default", label := JVal.str "Untitled",
          nodeType := .undef, config := .objNil, params := .objNil,
          integration_type_name := .undef, task := .undef, task_display_name := .undef,
          position := JVal.obj [("x", .num 0), ("y", .num 0)] }], []⟩
    ⟨[{ id := "1", type := JVal.str "default", label := JVal.str "Untitled",
          nodeType := .undef, config := .objNil, params := .objNil,
          integration_type_name := .undef, task := .undef, task_display_name := .undef,
          position := JVal.obj [("x", .num 0), ("y", .num 0)] }], []⟩
    rfl rfl
  exact (h.2.1 [JVal.obj [("id", JVal.num 1)]] rfl).1

theorem findNode_first (ns : List CNode) (s : String) :
    ∀ (i : Nat) (hi : i < ns.length), (ns.get ⟨i, hi⟩).id = s →
      (∀ j (hj : j < i), (ns.get ⟨j, Nat.lt_trans hj hi⟩).id ≠ s) →
      findNode ns s = some (ns.get ⟨i, hi⟩) := by
  induction ns with
  | nil =>
      intro i hi
      exact absurd hi (by simp)
  | cons n rest ih =>
      intro i hi hid hfirst
      cases i with
      | zero =>
          have hn : n.id = s := hid
          simp [findNode, hn]
      | succ j =>
          have hne : n.id ≠ s := hfirst 0 (Nat.succ_pos j)
          have hj : j < rest.length := Nat.lt_of_succ_lt_succ hi
          have hrec := ih j hj hid (fun m hm => hfirst (m + 1) (Nat.succ_lt_succ hm))
          have hbeq : (n.id == s) = false := by
            simp [hne]
          rw [findNode, hbeq]
          exact hrec

/-- C10: the endpoint lookup used by edge processing is first-match-wins:
with duplicate node ids, `findNode` returns the first node in input order
whose id matches, and the decision test the branch resolver applies to the
lookup result is therefore the first matching node's. -/
theorem c10_first_match_lookup (ns : List CNode) (s : String) (i : Nat)
    (hi : i < ns.length)
    (hid : (ns.get ⟨i, hi⟩).id = s)
    (hfirst : ∀ j (hj : j < i), (ns.get ⟨j, Nat.lt_trans hj hi⟩).id ≠ s) :
    findNode ns s = some (ns.get ⟨i, hi⟩) ∧
    isDecisionNode (findNode ns s) = isDecisionNode (some (ns.get ⟨i, hi⟩)) := by
  have hmain := findNode_first ns s i hi hid hfirst
  exact ⟨hmain, by rw [hmain]⟩

theorem c10_witness :
    findNode
      [{ id := "1", type := .str "condition", label := .str "A", nodeType := .str "condition", config := .objNil, params := .objNil, integration_type_name := .undef, task := .undef, task_display_name := .undef, position := .objNil },
       { id := "1", type := .str "action", label := .str "B", nodeType := .str "action", config := .objNil, params := .objNil, integration_type_name := .undef, task := .undef, task_display_name := .undef, position := .objNil }] "1" =
      some { id := "1", type := .str "condition", label := .str "A", nodeType := .str "condition", config := .objNil, params := .objNil, integration_type_name := .undef, task := .undef, task_display_name := .undef, position := .objNil } ∧
    isDecisionNode (findNode
      [{ id := "1", type := .str "condition", label := .str "A", nodeType := .str "condition", config := .objNil, params := .objNil, integration_type_name := .undef, task := .undef, task_display_name := .undef, position := .objNil },
       { id := "1", type := .str "action", label := .str "B", nodeType := .str "action", config := .objNil, params := .objNil, integration_type_name := .undef, task := .undef, task_display_name := .undef, position := .objNil }] "1") = true := by
  have h := c10_first_match_lookup
    [{ id := "1", type := .str "condition", label := .str "A", nodeType := .str "condition", config := .objNil, params := .objNil, integration_type_name := .undef, task := .undef, task_display_name := .undef, position := .objNil },
     { id := "1", type := .str "action", label := .str "B", nodeType := .str "action", config := .objNil, params := .objNil, integration_type_name := .undef, task := .undef, task_display_name := .undef, position := .objNil }] "1" 0
    (by decide) rfl (fun j hj => absurd hj (Nat.not_lt_zero j))
  exact ⟨h.1, by rw [h.1]; decide⟩

theorem jOr_undef_left (b : JVal) : jOr .undef b = b := rfl

theorem jsonClean_ne_undef {v : JVal} (h : jsonClean v = true) : v ≠ .undef := by
  intro hv; subst hv; simp [jsonClean] at h

theorem dropUndef_cons_keep {v : JVal} (k : String) (fs : List (String × JVal))
    (h : v ≠ .undef) : dropUndef ((k, v) :: fs) = (k, v) :: dropUndef fs := by
  cases v <;> first | rfl | exact absurd rfl h

theorem obj_ne_undef (fs : List (String × JVal)) : JVal.obj fs ≠ .undef := by
  cases fs with
  | nil => simp [JVal.obj]
  | cons p rest => cases p; simp [JVal.obj]

theorem obj_ne_null (fs : List (String × JVal)) : JVal.obj fs ≠ .null := by
  cases fs with
  | nil => simp [JVal.obj]
  | cons p rest => cases p; simp [JVal.obj]

theorem normNode_exportNode {n : CNode} (h : GoodNode n) :
    normNode (exportNode n) = .ok n := by
  obtain ⟨nid, nty, nlbl, nnt, ncfg, nprm, nitn, ntask, ntdn, npos⟩ := n
  obtain ⟨htype, hnt, hlblT, hlblC, hcfgT, hcfgC, hposT, hposC, hprm, hitn, htask, htdn⟩ := h
  simp only at htype hnt hprm hitn htask htdn hlblT hcfgT hposT
  subst hnt hprm hitn htask htdn
  cases nnt with
  | str k =>
    have hk : nodeTypeKeys.contains k = true := by simpa [typeRecognized] using htype
    have hkne : k ≠ "" := contains_ne_empty hk
    have hlblne : nlbl ≠ .undef := truthy_ne_undef hlblT
    have hcfgne : ncfg ≠ .undef := truthy_ne_undef hcfgT
    have hposne : npos ≠ .undef := truthy_ne_undef hposT
    have hdata : dropUndef [("label", nlbl), ("nodeType", JVal.str k), ("config", ncfg),
        ("params", JVal.objNil), ("integration_type_name", JVal.undef),
        ("task", JVal.undef), ("task_display_name", JVal.undef)] =
        [("label", nlbl), ("nodeType", JVal.str k), ("config", ncfg),
         ("params", JVal.objNil)] := by
      rw [dropUndef_cons_keep _ _ hlblne, dropUndef_cons_keep _ _ (by simp),
          dropUndef_cons_keep _ _ hcfgne, dropUndef_cons_keep _ _ (by simp)]
      rfl
    have hexp : exportNode ⟨nid, JVal.str k, nlbl, JVal.str k, ncfg, JVal.objNil,
        JVal.undef, JVal.undef, JVal.undef, npos⟩ =
        JVal.obj [("id", JVal.str nid), ("type", JVal.str k),
          ("data", JVal.obj [("label", nlbl), ("nodeType", JVal.str k),
            ("config", ncfg), ("params", JVal.objNil)]),
          ("position", npos)] := by
      rw [exportNode]
      simp only [hdata]
      rw [dropUndef_cons_keep _ _ (by simp), dropUndef_cons_keep _ _ (by simp),
          dropUndef_cons_keep _ _ (obj_ne_undef _), dropUndef_cons_keep _ _ hposne]
      rfl
    rw [hexp]
    rw [normNode_closed_form (obj_ne_undef _) (obj_ne_null _)]
    have hk2 : k ∈ nodeTypeKeys := by simpa using hk
    simp [lookupAny, optF, jOr_undef_left, jOr_of_truthy _ (truthy_str_of_ne hkne),
      jOr_of_truthy _ hlblT, jOr_of_truthy _ hcfgT, jOr_of_truthy _ hposT,
      jToString, JVal.obj, hk2, hkne]
  | undef => simp [typeRecognized] at htype
  | null => simp [typeRecognized] at htype
  | bool b => simp [typeRecognized] at htype
  | num m => simp [typeRecognized] at htype
  | arrNil => simp [typeRecognized] at htype
  | arrCons a b => simp [typeRecognized] at htype
  | objNil => simp [typeRecognized] at htype
  | objCons a b c => simp [typeRecognized] at htype

theorem processEdge_exportEdge (ns : List CNode) (k : Nat) {e : CEdge}
    (h : GoodEdge ns e) : processEdge ns k (exportEdge e) = .ok e := by
  obtain ⟨eid, esrc, etgt, esh, elbl⟩ := e
  obtain ⟨hsrc, htgt, hidT, hidC, hlblS, hshOK, hbranch⟩ := h
  simp only at hsrc htgt hidT hlblS hbranch hshOK
  have hidne : eid ≠ .undef := truthy_ne_undef hidT
  have hsrcT : truthy (JVal.str esrc) = true := truthy_str_of_ne hsrc
  have htgtT : truthy (JVal.str etgt) = true := truthy_str_of_ne htgt
  cases elbl with
  | str s =>
    have hlbl : jOr (JVal.str s) (JVal.str "") = JVal.str s := by
      by_cases hsE : s = ""
      · subst hsE; rfl
      · exact jOr_of_truthy _ (truthy_str_of_ne hsE)
    rcases hshOK with hshU | hshC
    · subst hshU
      have hexp : exportEdge ⟨eid, esrc, etgt, .undef, .str s⟩ =
          JVal.obj [("id", eid), ("source", .str esrc), ("target", .str etgt),
            ("label", .str s)] := by
        rw [exportEdge]
        rw [dropUndef_cons_keep _ _ hidne, dropUndef_cons_keep _ _ (by simp),
            dropUndef_cons_keep _ _ (by simp)]
        rfl
      rw [hexp, processEdge_closed_form ns k (obj_ne_undef _) (obj_ne_null _)]
      simp only [lookupAny, optF, JVal.obj]
      simp [jOr_of_truthy _ hsrcT, jOr_of_truthy _ htgtT, jOr_of_truthy _ hidT,
        jToString, truthy_undef, hlbl]
      cases hD : isDecisionNode (findNode ns esrc) with
      | false => simp
      | true =>
        intro _ hsT
        have hbr := hbranch hD hsT
        by_cases hlt : lowerString s = "true"
        · exact absurd (hbr.1 hlt) (by simp)
        · rw [if_neg hlt]
          by_cases hlf : lowerString s = "false"
          · exact absurd (hbr.2 hlf) (by simp)
          · rw [if_neg hlf]
    · have hshne : esh ≠ .undef := jsonClean_ne_undef hshC
      have hexp : exportEdge ⟨eid, esrc, etgt, esh, .str s⟩ =
          JVal.obj [("id", eid), ("source", .str esrc), ("target", .str etgt),
            ("sourceHandle", esh), ("label", .str s)] := by
        rw [exportEdge]
        rw [dropUndef_cons_keep _ _ hidne, dropUndef_cons_keep _ _ (by simp),
            dropUndef_cons_keep _ _ (by simp), dropUndef_cons_keep _ _ hshne]
        rfl
      rw [hexp, processEdge_closed_form ns k (obj_ne_undef _) (obj_ne_null _)]
      simp only [lookupAny, optF, JVal.obj]
      simp [jOr_of_truthy _ hsrcT, jOr_of_truthy _ htgtT, jOr_of_truthy _ hidT,
        jToString, truthy_undef, hlbl]
      cases hD : isDecisionNode (findNode ns esrc) with
      | false => simp
      | true =>
        intro _ hsT
        have hbr := hbranch hD hsT
        by_cases hlt : lowerString s = "true"
        · rw [if_pos hlt]
          exact (hbr.1 hlt).symm
        · rw [if_neg hlt]
          by_cases hlf : lowerString s = "false"
          · rw [if_pos hlf]
            exact (hbr.2 hlf).symm
          · rw [if_neg hlf]
  | undef => simp [isStrVal] at hlblS
  | null => simp [isStrVal] at hlblS
  | bool b => simp [isStrVal] at hlblS
  | num m => simp [isStrVal] at hlblS
  | arrNil => simp [isStrVal] at hlblS
  | arrCons a b => simp [isStrVal] at hlblS
  | objNil => simp [isStrVal] at hlblS
  | objCons a b c => simp [isStrVal] at hlblS

theorem normNodes_export {l : List CNode} (h : ∀ n ∈ l, GoodNode n) :
    normNodes (l.map exportNode) = .ok l := by
  induction l with
  | nil => rfl
  | cons n rest ih =>
      simp [normNodes, normNode_exportNode (h n (List.mem_cons_self n rest)),
        ih (fun m hm => h m (List.mem_cons_of_mem n hm)), okBind]

theorem processEdges_export (ns : List CNode) {l : List CEdge}
    (h : ∀ e ∈ l, GoodEdge ns e) :
    ∀ k, processEdges ns k (l.map exportEdge) = .ok l := by
  induction l with
  | nil => intro k; rfl
  | cons e rest ih =>
      intro k
      simp [processEdges, processEdge_exportEdge ns k (h e (List.mem_cons_self e rest)),
        ih (fun m hm => h m (List.mem_cons_of_mem e hm)) (k + 1), okBind]

/-- C4 (amended): the JSON export of a canonical graph re-normalizes to the
same canonical graph exactly on graphs whose nodes carry a recognized
string kind agreeing with the stored raw tag, truthy JSON-clean label,
config and position, an empty param map and no domain hints, and whose
edges have nonempty endpoints, truthy JSON-clean ids, string labels, and a
branch consistent with a decision-source true/false label. Outside this
class the trip is lossy: re-normalization reads `params` and the domain
hints from the top level of a raw node — where the canonical shape stores
nothing — and rewrites the stored raw kind tag, so param maps and hints are
dropped (see the counterexample). -/
theorem c4_amended_round_trip (c : CGraph)
    (hn : ∀ n ∈ c.nodes, GoodNode n)
    (he : ∀ e ∈ c.edges, GoodEdge c.nodes e) :
    normalizeGraph (exportGraph c) = .ok c := by
  obtain ⟨ns, es⟩ := c
  simp only at hn he
  have hg1 : exportGraph ⟨ns, es⟩ ≠ .undef := by simp [exportGraph, JVal.obj]
  have hg2 : exportGraph ⟨ns, es⟩ ≠ .null := by simp [exportGraph, JVal.obj]
  have hwf : lookupAny (exportGraph ⟨ns, es⟩) "workflows" = .undef := by
    simp [exportGraph, JVal.obj, lookupAny]
  have hns : lookupAny (exportGraph ⟨ns, es⟩) "nodes" =
      JVal.arr (ns.map exportNode) := by
    simp [exportGraph, JVal.obj, lookupAny]
  have hes : lookupAny (exportGraph ⟨ns, es⟩) "edges" =
      JVal.arr (es.map exportEdge) := by
    simp [exportGraph, JVal.obj, lookupAny]
  have hsel : selectRaw (exportGraph ⟨ns, es⟩) =
      .ok (JVal.arr (ns.map exportNode), JVal.arr (es.map exportEdge)) := by
    simp [selectRaw, getF_eq_ok hg1 hg2, hwf, hns, hes, okBind, truthy_undef,
      jOr_of_truthy _ (truthy_arr _)]
  simp [normalizeGraph, hsel, okBind, asArray_arr,
    normNodes_export hn, processEdges_export ns he 0]

theorem c4_amended_witness :
    normalizeGraph (exportGraph ⟨
      [{ id := "1", type := .str "condition", label := .str "Check", nodeType := .str "condition", config := .objNil, params := .objNil, integration_type_name := .undef, task := .undef, task_display_name := .undef, position := JVal.obj [("x", .num 0), ("y", .num 0)] }],
      [{ id := JVal.str "e1", source := "1", target := "1", sourceHandle := JVal.str "true", label := JVal.str "True" }]⟩) =
    .ok ⟨
      [{ id := "1", type := .str "condition", label := .str "Check", nodeType := .str "condition", config := .objNil, params := .objNil, integration_type_name := .undef, task := .undef, task_display_name := .undef, position := JVal.obj [("x", .num 0), ("y", .num 0)] }],
      [{ id := JVal.str "e1", source := "1", target := "1", sourceHandle := JVal.str "true", label := JVal.str "True" }]⟩ :=
  c4_amended_round_trip _ (by decide) (by decide)

/-- C4 counterexample: a canonical graph holding a nonempty param map does
not survive export plus re-normalization — the param map comes back empty —
so normalization is not a left inverse of the export on canonical graphs
as the claim states. -/
theorem c4_counterexample :
    (normalizeGraph (JVal.obj [
        ("nodes", JVal.arr [JVal.obj [("id", .num 1),
          ("params", JVal.obj [("a", .num 1)])]]),
        ("edges", JVal.arr [])])).map
      (fun c => c.nodes.map CNode.params) =
      .ok [JVal.obj [("a", .num 1)]] ∧
    ((normalizeGraph (JVal.obj [
        ("nodes", JVal.arr [JVal.obj [("id", .num 1),
          ("params", JVal.obj [("a", .num 1)])]]),
        ("edges", JVal.arr [])])).bind
      (fun c => normalizeGraph (exportGraph c))).map
      (fun c => c.nodes.map CNode.params) =
      .ok [JVal.objNil] ∧
    JVal.obj [("a", .num 1)] ≠ JVal.objNil :=
  ⟨rfl, rfl, by decide⟩
